import Mathlib

/-!
Shallow embedding of `visualize_log.py` (UDP reliable-messaging log visualizer)
and proofs about its parsing and statistics-aggregation pipeline.

Strings are modelled as `List Char`; a file is a `List (List Char)` of its
lines (without the trailing newline, which Python's `str.strip` removes
anyway).  Python dictionaries with integer default (`defaultdict(int)`) are
modelled as functions `Nat → Nat`; Python sets of ints as `Finset Nat`.
-/

namespace VisualizeLog

/-- The whitespace characters stripped by Python's `str.strip()` (ASCII part;
the log lines at issue contain only ASCII). -/
def pyWS (c : Char) : Bool :=
  c = ' ' || c = '\t' || c = '\n' || c = '\r' || c = '\x0b' || c = '\x0c'

/-- Python's `line.strip()`: remove leading and trailing whitespace. -/
def pyStrip (s : List Char) : List Char :=
  (((s.dropWhile pyWS).reverse).dropWhile pyWS).reverse

/-- Does `p` occur at the start of `s`? (used to model anchored regex pieces
and Python's `str.replace` scanning). -/
def startsWithList : List Char → List Char → Bool
  | [], _ => true
  | _ :: _, [] => false
  | p :: ps, c :: cs => p = c && startsWithList ps cs

/-- Does `p` occur at the end of `s`? (used to model which glob pattern
`*Client.log` / `*Server.log` / `*Proxy.log` matched a filename). -/
def endsWithList (p s : List Char) : Bool :=
  startsWithList p.reverse s.reverse

/-- Python's `p in s` substring test. -/
def containsSub (p : List Char) : List Char → Bool
  | [] => startsWithList p []
  | c :: cs => startsWithList p (c :: cs) || containsSub p cs

/-- Numeric value of a list of decimal digit characters (as `int()` of the
digit run captured by `(\d+)`). -/
def digitsVal (ds : List Char) : Nat :=
  ds.foldl (fun a c => a * 10 + (c.toNat - 48)) 0

/-- Model of `re.search(key + r'(\d+)', msg)` for a literal `key` ending in
`=` (`seq=` / `attempt=`): scan left to right for the first position where
`key` is followed by at least one digit; return the value of the maximal
digit run there.  (When `key` matches but no digit follows, `re.search`
keeps scanning from the next position, which the recursion mirrors.) -/
def findNumAfter (key : List Char) : List Char → Option Nat
  | [] => none
  | c :: cs =>
    if startsWithList key (c :: cs) then
      let rest := List.drop key.length (c :: cs)
      let ds := rest.takeWhile Char.isDigit
      if ds.isEmpty then findNumAfter key cs else some (digitsVal ds)
    else findNumAfter key cs

/-- Model of `re.search(r'DELAYED (\d+)ms', msg)`: scan for `"DELAYED "`
followed by a digit run followed by `"ms"`.  `\d+` is greedy and cannot
usefully backtrack (shortening the run puts a digit where `m` is required),
so the maximal run must be followed by `ms`. -/
def findDelayMs : List Char → Option Nat
  | [] => none
  | c :: cs =>
    if startsWithList ("DELAYED ".toList) (c :: cs) then
      let rest := List.drop ("DELAYED ".toList).length (c :: cs)
      let ds := rest.takeWhile Char.isDigit
      if ds.isEmpty then findDelayMs cs
      else if startsWithList ("ms".toList) (rest.dropWhile Char.isDigit) then
        some (digitsVal ds)
      else findDelayMs cs
    else findDelayMs cs

/-- The character class `[\d\-: ]` of the timestamp regex. -/
def isTsChar (c : Char) : Bool :=
  c.isDigit || c = '-' || c = ':' || c = ' '

/-- Model of `re.match(r'\[([\d\-: ]+)\] (.+)', s)`.  The class `[\d\-: ]`
cannot contain `]`, so the greedy run is exactly the maximal run of class
characters after `[` (backtracking cannot shorten it: the run character at
any earlier cut is a class character, never `]`); the run must be non-empty
(`+`), then `] ` must follow literally, and `(.+)` requires a non-empty
remainder (the stripped line contains no newline). -/
def matchBracket (s : List Char) : Option (List Char × List Char) :=
  match s with
  | '[' :: rest =>
    let run := rest.takeWhile isTsChar
    match rest.dropWhile isTsChar with
    | ']' :: ' ' :: msg =>
      if run.isEmpty || msg.isEmpty then none else some (run, msg)
    | _ => none
  | _ => none

/-- A parsed timestamp, as the fields of the `datetime` produced by
`datetime.strptime(ts, '%Y-%m-%d %H:%M:%S')`. -/
structure DateTime where
  year : Nat
  month : Nat
  day : Nat
  hour : Nat
  minute : Nat
  second : Nat
deriving DecidableEq, Repr

/-- Length of a month in the proleptic Gregorian calendar used by
`datetime` (leap rule: divisible by 4 and not by 100, or by 400). -/
def monthLen (y m : Nat) : Nat :=
  if m = 2 then (if (y % 4 = 0 && y % 100 != 0) || y % 400 = 0 then 29 else 28)
  else if m = 4 || m = 6 || m = 9 || m = 11 then 30 else 31

/-- Acceptance of one numeric field of `_strptime`.  CPython compiles `%m`
to `1[0-2]|0[1-9]|[1-9]`, `%d` to `3[01]|[12]\d|0[1-9]|[1-9]`, `%H` to
`2[0-3]|[0-1]\d|\d`, `%M` to `[0-5]\d|\d`, `%S` to `6[01]|[0-5]\d|\d`: in
the timestamp the character after each field is a non-digit separator (or
the end), so a successful alternative must consume the whole maximal digit
run, and each pattern accepts exactly the runs of length 1 or 2 whose value
lies in the directive's range (1-digit runs are single digits, so their
value is at most 9 and only the lower bound matters). -/
def runOk (ds : List Char) (lo hi : Nat) : Bool :=
  (ds.length = 1 || ds.length = 2) && lo ≤ digitsVal ds && digitsVal ds ≤ hi

/-- Model of `datetime.strptime(s, '%Y-%m-%d %H:%M:%S')` (CPython
`_strptime`): `%Y` is exactly four digits; the literal `-` and `:` match
exactly; the literal space in the format matches one or more whitespace
characters (inside the bracket character class only `' '` is whitespace);
the whole string must be consumed; finally the `datetime` constructor
raises `ValueError` unless `1 <= year`, `day <= monthLen` and
`second <= 59` (the regex already bounds the other fields). -/
def strptimeYmdHMS (s : List Char) : Option DateTime :=
  let yds := s.takeWhile Char.isDigit
  if yds.length != 4 then none else
  match s.dropWhile Char.isDigit with
  | '-' :: r2 =>
    let mds := r2.takeWhile Char.isDigit
    if !runOk mds 1 12 then none else
    match r2.dropWhile Char.isDigit with
    | '-' :: r4 =>
      let dds := r4.takeWhile Char.isDigit
      if !runOk dds 1 31 then none else
      match r4.dropWhile Char.isDigit with
      | ' ' :: r6 =>
        let r7 := r6.dropWhile (fun c => c = ' ')
        let hds := r7.takeWhile Char.isDigit
        if !runOk hds 0 23 then none else
        match r7.dropWhile Char.isDigit with
        | ':' :: r8 =>
          let mids := r8.takeWhile Char.isDigit
          if !runOk mids 0 59 then none else
          match r8.dropWhile Char.isDigit with
          | ':' :: r9 =>
            let sds := r9.takeWhile Char.isDigit
            if !runOk sds 0 61 then none else
            if !(r9.dropWhile Char.isDigit).isEmpty then none else
            let y := digitsVal yds
            let mo := digitsVal mds
            let d := digitsVal dds
            let sec := digitsVal sds
            if 1 ≤ y && 1 ≤ d && d ≤ monthLen y mo && sec ≤ 59 then
              some ⟨y, mo, d, digitsVal hds, digitsVal mids, sec⟩
            else none
          | _ => none
        | _ => none
      | _ => none
    | _ => none
  | _ => none

/-- One log event: `{'timestamp': ..., 'message': ...}`. -/
structure Event where
  timestamp : DateTime
  message : List Char
deriving DecidableEq, Repr

/-- The per-line body of `parse_log_file`: strip the line, match the
bracket pattern, parse the timestamp strictly; a failure at either stage
contributes no event (the `ValueError` is caught and the line skipped). -/
def parseLine (line : List Char) : Option Event :=
  match matchBracket (pyStrip line) with
  | some (ts, msg) =>
    match strptimeYmdHMS ts with
    | some dt => some ⟨dt, msg⟩
    | none => none
  | none => none

/-- Model of `parse_log_file` on the list of lines of an existing file: events of
the well-formed lines, in file order.  (The `FileNotFoundError` branch,
which returns `[]` for a missing file, is file-system behaviour outside
this embedding.) -/
def parse_log_file (lines : List (List Char)) : List Event :=
  lines.filterMap parseLine

/-- The accumulator of `analyze_client_log`.  `retransmissions` is a
`defaultdict(int)`, modelled as a total function with default `0`;
`sequences` is a Python `set` of ints. -/
structure ClientStats where
  total_sent : Nat
  total_acked : Nat
  total_failed : Nat
  total_timeouts : Nat
  retransmissions : Nat → Nat
  sequences : Finset Nat

/-- The initial `stats` dictionary of `analyze_client_log`. -/
def clientInit : ClientStats :=
  ⟨0, 0, 0, 0, fun _ => 0, ∅⟩

/-- The `defaultdict(int)` update `d[a] += 1`. -/
def bump (f : Nat → Nat) (a : Nat) : Nat → Nat :=
  fun k => if k = a then f a + 1 else f k

/-- The loop body of `analyze_client_log`: four independent `if` checks
(no `elif`), each a substring containment on the message. -/
def clientStep (st : ClientStats) (e : Event) : ClientStats :=
  let st :=
    if containsSub ("SEND:".toList) e.message then
      { st with
        total_sent := st.total_sent + 1,
        sequences :=
          match findNumAfter ("seq=".toList) e.message with
          | some n => insert n st.sequences
          | none => st.sequences }
    else st
  let st :=
    if containsSub ("ACK_RECV:".toList) e.message then
      { st with total_acked := st.total_acked + 1 }
    else st
  let st :=
    if containsSub ("FAILED:".toList) e.message then
      { st with total_failed := st.total_failed + 1 }
    else st
  if containsSub ("TIMEOUT:".toList) e.message then
    let st := { st with total_timeouts := st.total_timeouts + 1 }
    match findNumAfter ("attempt=".toList) e.message with
    | some a => { st with retransmissions := bump st.retransmissions a }
    | none => st
  else st

/-- Model of `analyze_client_log`: fold the loop body over the events in order. -/
def analyze_client_log (events : List Event) : ClientStats :=
  events.foldl clientStep clientInit

/-- The accumulator of `analyze_server_log`. -/
structure ServerStats where
  total_received : Nat
  total_acks_sent : Nat
  unique_sequences : Finset Nat
deriving DecidableEq

/-- The loop body of `analyze_server_log`: a receive needs both `RECV:`
and `payload=` in the message; the `ACK_SEND:` check is independent. -/
def serverStep (st : ServerStats) (e : Event) : ServerStats :=
  let st :=
    if containsSub ("RECV:".toList) e.message &&
        containsSub ("payload=".toList) e.message then
      { st with
        total_received := st.total_received + 1,
        unique_sequences :=
          match findNumAfter ("seq=".toList) e.message with
          | some n => insert n st.unique_sequences
          | none => st.unique_sequences }
    else st
  if containsSub ("ACK_SEND:".toList) e.message then
    { st with total_acks_sent := st.total_acks_sent + 1 }
  else st

/-- Model of `analyze_server_log`. -/
def analyze_server_log (events : List Event) : ServerStats :=
  events.foldl serverStep ⟨0, 0, ∅⟩

/-- The accumulator of `analyze_proxy_log`.  Delay magnitudes are Python
lists grown by `append`. -/
structure ProxyStats where
  client_to_server : Nat
  server_to_client : Nat
  dropped_c2s : Nat
  dropped_s2c : Nat
  delayed_c2s : Nat
  delayed_s2c : Nat
  delay_times_c2s : List Nat
  delay_times_s2c : List Nat
deriving DecidableEq

/-- The loop body of `analyze_proxy_log`: three `if`/`elif` pairs, one per
statistic, each choosing a direction. -/
def proxyStep (st : ProxyStats) (e : Event) : ProxyStats :=
  let st :=
    if containsSub ("C->S: Received".toList) e.message then
      { st with client_to_server := st.client_to_server + 1 }
    else if containsSub ("S->C: Received".toList) e.message then
      { st with server_to_client := st.server_to_client + 1 }
    else st
  let st :=
    if containsSub ("C->S: DROPPED".toList) e.message then
      { st with dropped_c2s := st.dropped_c2s + 1 }
    else if containsSub ("S->C: DROPPED".toList) e.message then
      { st with dropped_s2c := st.dropped_s2c + 1 }
    else st
  if containsSub ("C->S: DELAYED".toList) e.message then
    let st := { st with delayed_c2s := st.delayed_c2s + 1 }
    match findDelayMs e.message with
    | some n => { st with delay_times_c2s := st.delay_times_c2s ++ [n] }
    | none => st
  else if containsSub ("S->C: DELAYED".toList) e.message then
    let st := { st with delayed_s2c := st.delayed_s2c + 1 }
    match findDelayMs e.message with
    | some n => { st with delay_times_s2c := st.delay_times_s2c ++ [n] }
    | none => st
  else st

/-- Model of `analyze_proxy_log`. -/
def analyze_proxy_log (events : List Event) : ProxyStats :=
  events.foldl proxyStep ⟨0, 0, 0, 0, 0, 0, [], []⟩

/-- The success-rate metric of `analyze_test_set` (lines 187-189): printed
only under the guard `len(client_stats['sequences']) > 0`, so modelled as
`none` (line absent) when the guard fails. -/
def success_rate (cs : ClientStats) : Option ℚ :=
  if 0 < cs.sequences.card then
    some ((cs.total_acked : ℚ) / (cs.sequences.card : ℚ) * 100)
  else none

/-- The client-to-server drop-rate metric (lines 221-223), guarded by
`proxy_stats['client_to_server'] > 0`. -/
def drop_rate_c2s (ps : ProxyStats) : Option ℚ :=
  if 0 < ps.client_to_server then
    some ((ps.dropped_c2s : ℚ) / (ps.client_to_server : ℚ) * 100)
  else none

/-- The server-to-client drop-rate metric (lines 236-238), guarded by
`proxy_stats['server_to_client'] > 0`. -/
def drop_rate_s2c (ps : ProxyStats) : Option ℚ :=
  if 0 < ps.server_to_client then
    some ((ps.dropped_s2c : ℚ) / (ps.server_to_client : ℚ) * 100)
  else none

/-- The delivery-rate metric of the summary block (lines 259-261), guarded
by `messages_sent > 0` where `messages_sent = len(client_stats['sequences'])`
and `messages_received = len(server_stats['unique_sequences'])`. -/
def delivery_rate (cs : ClientStats) (ss : ServerStats) : Option ℚ :=
  if 0 < cs.sequences.card then
    some ((ss.unique_sequences.card : ℚ) / (cs.sequences.card : ℚ) * 100)
  else none

/-- Model of `extract_test_name`:
`filename.replace('Client.log','').replace('Server.log','').replace('Proxy.log','')`,
then `'default'` if the result is empty.  `removeOccs` models
`str.replace(old, '')`: remove the non-overlapping occurrences of `old`,
scanning left to right, without rescanning the result (the embedding is
only called with the three non-empty literal patterns). -/
def removeOccs (old : List Char) : List Char → List Char
  | [] => []
  | c :: cs =>
    if h : startsWithList old (c :: cs) ∧ old ≠ [] then
      removeOccs old (List.drop old.length (c :: cs))
    else c :: removeOccs old cs
termination_by s => s.length
decreasing_by
  · simp only [List.length_drop, List.length_cons]
    have : old.length ≠ 0 := by
      intro h0
      exact h.2 (List.length_eq_zero.mp h0)
    omega
  · simp

/-- The function `extract_test_name` itself. -/
def extract_test_name (filename : List Char) : List Char :=
  let n1 := removeOccs ("Client.log".toList) filename
  let n2 := removeOccs ("Server.log".toList) n1
  let n3 := removeOccs ("Proxy.log".toList) n2
  if n3.isEmpty then "default".toList else n3

/-- The identifier the specification describes: the filename with the
single matched suffix removed, `'default'` when the remainder is empty.
This follows the spec's words, for comparison with `extract_test_name`. -/
def spec_suffix_name (filename sfx : List Char) : List Char :=
  let r := filename.take (filename.length - sfx.length)
  if r.isEmpty then "default".toList else r

/-- The decimal digit character for `k < 10`. -/
def dc (k : Nat) : Char := Char.ofNat (48 + k)

/-- The canonical rendering `YYYY-MM-DD HH:MM:SS` of a timestamp, used to
state which input lines the specification calls well-formed. -/
def canonTs (y mo d h mi s : Nat) : List Char :=
  [dc (y / 1000), dc (y / 100 % 10), dc (y / 10 % 10), dc (y % 10), '-',
   dc (mo / 10), dc (mo % 10), '-', dc (d / 10), dc (d % 10), ' ',
   dc (h / 10), dc (h % 10), ':', dc (mi / 10), dc (mi % 10), ':',
   dc (s / 10), dc (s % 10)]

/-- Validity of a timestamp's fields, as enforced by the `datetime`
constructor (year 1..9999, month 1..12, day fitting the month, 24-hour
clock, no leap seconds). -/
def ValidDT (y mo d h mi s : Nat) : Prop :=
  1 ≤ y ∧ y ≤ 9999 ∧ 1 ≤ mo ∧ mo ≤ 12 ∧ 1 ≤ d ∧ d ≤ monthLen y mo ∧
    h ≤ 23 ∧ mi ≤ 59 ∧ s ≤ 59

instance (y mo d h mi s : Nat) : Decidable (ValidDT y mo d h mi s) := by
  unfold ValidDT; infer_instance

/-- The last character of `msg` exists and is not whitespace (so a line
ending in `msg` is unchanged by `str.strip()`). -/
def lastNonWS (msg : List Char) : Bool :=
  match msg.getLast? with
  | some c => !pyWS c
  | none => false

/-- A line that is well-formed in the sense of the specification:
`[YYYY-MM-DD HH:MM:SS] message` with a valid timestamp and a non-empty
free-text message (whose last character is not whitespace, so that the
message survives stripping verbatim). -/
def WellFormedLine (l : List Char) : Prop :=
  ∃ y mo d h mi s msg, ValidDT y mo d h mi s ∧ lastNonWS msg = true ∧
    l = '[' :: canonTs y mo d h mi s ++ ']' :: ' ' :: msg

/-- Pattern `p` has no non-trivial border (no proper non-empty prefix equal to the
suffix of the same length).  The three suffix patterns of
`extract_test_name` are border-free, which is what makes an occurrence of
a pattern spanning the boundary of `r ++ p` impossible. -/
def borderFree (p : List Char) : Prop :=
  ∀ k, k < p.length → 0 < k → p.take k ≠ p.drop (p.length - k)

instance (p : List Char) : Decidable (borderFree p) := by
  unfold borderFree; infer_instance

example : parse_log_file ["[2024-01-01 12:00:00] SEND: seq=1".toList] =
    [⟨⟨2024, 1, 1, 12, 0, 0⟩, "SEND: seq=1".toList⟩] := by decide

example : parse_log_file ["no bracket here".toList] = [] := by decide

example : parse_log_file ["[2024-13-01 12:00:00] x".toList] = [] := by decide

example : parse_log_file ["[2024-2-29 0:0:0] leap".toList] =
    [⟨⟨2024, 2, 29, 0, 0, 0⟩, "leap".toList⟩] := by decide

example : parse_log_file ["[2023-02-29 00:00:00] notleap".toList] = [] := by decide

example : findNumAfter ("seq=".toList) ("SEND: seq=17 bytes".toList) = some 17 := by decide

example : findDelayMs ("C->S: DELAYED 30ms".toList) = some 30 := by decide

/-! ## Invariant lemmas for the client classifier (claim C4) -/

theorem clientStep_inv (st : ClientStats) (e : Event)
    (h : st.sequences.card ≤ st.total_sent) :
    (clientStep st e).sequences.card ≤ (clientStep st e).total_sent := by
  unfold clientStep
  by_cases h1 : containsSub ("SEND:".toList) e.message <;>
    by_cases h2 : containsSub ("ACK_RECV:".toList) e.message <;>
    by_cases h3 : containsSub ("FAILED:".toList) e.message <;>
    by_cases h4 : containsSub ("TIMEOUT:".toList) e.message <;>
    cases hs : findNumAfter ("seq=".toList) e.message <;>
    cases ha : findNumAfter ("attempt=".toList) e.message <;>
    simp only [h1, h2, h3, h4, hs, ha, if_true, if_false, ite_true, ite_false] <;>
    simp_all <;>
    first
      | omega
      | exact le_trans (Finset.card_insert_le _ _) (by omega)

/-- C4: for every event sequence, `analyze_client_log` returns statistics
with `total_sent` at least the number of distinct sequence numbers: every
element of `sequences` was inserted by a `SEND:` event that also bumped
`total_sent`, and sets deduplicate. -/
theorem client_sent_ge_sequences (events : List Event) :
    (analyze_client_log events).sequences.card ≤
      (analyze_client_log events).total_sent := by
  suffices h : ∀ st : ClientStats, st.sequences.card ≤ st.total_sent →
      (events.foldl clientStep st).sequences.card ≤
        (events.foldl clientStep st).total_sent by
    exact h clientInit (by simp [clientInit])
  induction events with
  | nil => intro st h; simpa using h
  | cons e es ih =>
    intro st h
    simpa using ih (clientStep st e) (clientStep_inv st e h)

/-! ## Invariant lemmas for the proxy classifier (claim C10) -/

theorem proxyStep_inv (st : ProxyStats) (e : Event)
    (h1 : st.delay_times_c2s.length ≤ st.delayed_c2s)
    (h2 : st.delay_times_s2c.length ≤ st.delayed_s2c) :
    (proxyStep st e).delay_times_c2s.length ≤ (proxyStep st e).delayed_c2s ∧
      (proxyStep st e).delay_times_s2c.length ≤ (proxyStep st e).delayed_s2c := by
  unfold proxyStep
  by_cases g1 : containsSub ("C->S: Received".toList) e.message <;>
    by_cases g2 : containsSub ("S->C: Received".toList) e.message <;>
    by_cases g3 : containsSub ("C->S: DROPPED".toList) e.message <;>
    by_cases g4 : containsSub ("S->C: DROPPED".toList) e.message <;>
    by_cases g5 : containsSub ("C->S: DELAYED".toList) e.message <;>
    by_cases g6 : containsSub ("S->C: DELAYED".toList) e.message <;>
    cases hd : findDelayMs e.message <;>
    simp only [g1, g2, g3, g4, g5, g6, hd, if_true, if_false, ite_true, ite_false] <;>
    simp_all <;> omega

/-- C10: in every `ProxyStats` produced by `analyze_proxy_log`, each
direction's list of delay magnitudes is no longer than that direction's
delayed counter: a magnitude is appended only inside the branch that also
increments the counter (and only when the `DELAYED (\d+)ms` search hits). -/
theorem proxy_delay_times_le_delayed (events : List Event) :
    (analyze_proxy_log events).delay_times_c2s.length ≤
        (analyze_proxy_log events).delayed_c2s ∧
      (analyze_proxy_log events).delay_times_s2c.length ≤
        (analyze_proxy_log events).delayed_s2c := by
  suffices h : ∀ st : ProxyStats,
      st.delay_times_c2s.length ≤ st.delayed_c2s →
      st.delay_times_s2c.length ≤ st.delayed_s2c →
      (events.foldl proxyStep st).delay_times_c2s.length ≤
          (events.foldl proxyStep st).delayed_c2s ∧
        (events.foldl proxyStep st).delay_times_s2c.length ≤
          (events.foldl proxyStep st).delayed_s2c by
    exact h ⟨0, 0, 0, 0, 0, 0, [], []⟩ (by simp) (by simp)
  induction events with
  | nil => intro st h1 h2; simpa using And.intro h1 h2
  | cons e es ih =>
    intro st h1 h2
    obtain ⟨k1, k2⟩ := proxyStep_inv st e h1 h2
    simpa using ih (proxyStep st e) k1 k2

/-! ## Independence of the client marker checks (claim C2) -/

/-- C2: the four marker checks of `analyze_client_log` are independent
`if`s, so each counter moves by exactly its own marker's indicator on every
event (a message holding several markers feeds several counters); and on
the log of two `TIMEOUT: attempt=1` events and one `TIMEOUT: attempt=2`
event (any timestamps) the retransmission mapping is `{1: 2, 2: 1}`. -/
theorem client_checks_independent :
    (∀ (st : ClientStats) (e : Event),
      (clientStep st e).total_sent =
          st.total_sent +
            (if containsSub ("SEND:".toList) e.message then 1 else 0) ∧
        (clientStep st e).total_acked =
          st.total_acked +
            (if containsSub ("ACK_RECV:".toList) e.message then 1 else 0) ∧
        (clientStep st e).total_failed =
          st.total_failed +
            (if containsSub ("FAILED:".toList) e.message then 1 else 0) ∧
        (clientStep st e).total_timeouts =
          st.total_timeouts +
            (if containsSub ("TIMEOUT:".toList) e.message then 1 else 0)) ∧
      ∀ t1 t2 t3 : DateTime,
        (analyze_client_log
            [⟨t1, "TIMEOUT: attempt=1".toList⟩,
             ⟨t2, "TIMEOUT: attempt=1".toList⟩,
             ⟨t3, "TIMEOUT: attempt=2".toList⟩]).retransmissions =
          fun a => if a = 1 then 2 else if a = 2 then 1 else 0 := by
  constructor
  · intro st e
    unfold clientStep
    by_cases h1 : containsSub ("SEND:".toList) e.message <;>
      by_cases h2 : containsSub ("ACK_RECV:".toList) e.message <;>
      by_cases h3 : containsSub ("FAILED:".toList) e.message <;>
      by_cases h4 : containsSub ("TIMEOUT:".toList) e.message <;>
      cases hs : findNumAfter ("seq=".toList) e.message <;>
      cases ha : findNumAfter ("attempt=".toList) e.message <;>
      simp_all
  · intro t1 t2 t3
    funext a
    by_cases ha1 : a = 1 <;> by_cases ha2 : a = 2 <;>
      simp [analyze_client_log, clientInit, clientStep, bump, containsSub,
        startsWithList, findNumAfter, digitsVal, ha1, ha2]

/-! ## The server receive conjunction (claim C3) -/

/-- C3: `analyze_server_log` counts a receive exactly when the message
contains both `RECV:` and `payload=`; on the two-event log
`RECV: seq=5 payload=x` / `RECV: seq=5 payload=y` (any timestamps) it
returns `total_received = 2` and `unique_sequences = {5}`. -/
theorem server_receive_conjunction :
    (∀ (st : ServerStats) (e : Event),
      (serverStep st e).total_received =
        st.total_received +
          (if containsSub ("RECV:".toList) e.message &&
              containsSub ("payload=".toList) e.message then 1 else 0)) ∧
      ∀ t1 t2 : DateTime,
        (analyze_server_log
            [⟨t1, "RECV: seq=5 payload=x".toList⟩,
             ⟨t2, "RECV: seq=5 payload=y".toList⟩]).total_received = 2 ∧
          (analyze_server_log
              [⟨t1, "RECV: seq=5 payload=x".toList⟩,
               ⟨t2, "RECV: seq=5 payload=y".toList⟩]).unique_sequences =
            {5} := by
  constructor
  · intro st e
    unfold serverStep
    by_cases hr : containsSub ("RECV:".toList) e.message <;>
      by_cases hp : containsSub ("payload=".toList) e.message <;>
      by_cases h2 : containsSub ("ACK_SEND:".toList) e.message <;>
      cases hs : findNumAfter ("seq=".toList) e.message <;>
      simp_all
  · intro t1 t2
    constructor <;>
      simp [analyze_server_log, serverStep, containsSub, startsWithList,
        findNumAfter, digitsVal]

/-! ## Guarded derived rates (claim C6) -/

/-- C6: each derived rate of `analyze_test_set` (success rate, the two
per-direction drop rates, delivery rate) is computed only under the guard
that its denominator is non-zero, and the metric is absent (`none`)
exactly when the denominator is zero. -/
theorem rates_guarded (cs : ClientStats) (ss : ServerStats) (ps : ProxyStats) :
    ((success_rate cs).isSome ↔ cs.sequences.card ≠ 0) ∧
      ((drop_rate_c2s ps).isSome ↔ ps.client_to_server ≠ 0) ∧
      ((drop_rate_s2c ps).isSome ↔ ps.server_to_client ≠ 0) ∧
      ((delivery_rate cs ss).isSome ↔ cs.sequences.card ≠ 0) := by
  refine ⟨?_, ?_, ?_, ?_⟩
  · unfold success_rate; split <;> simp_all [Finset.nonempty_iff_ne_empty]
  · unfold drop_rate_c2s; split <;> simp_all <;> omega
  · unfold drop_rate_s2c; split <;> simp_all <;> omega
  · unfold delivery_rate; split <;> simp_all [Finset.nonempty_iff_ne_empty]

/-! ## Substring and replace lemmas (claim C5) -/

theorem startsWithList_iff_take (p : List Char) :
    ∀ s : List Char, startsWithList p s = true ↔ s.take p.length = p := by
  induction p with
  | nil => intro s; simp [startsWithList]
  | cons a ps ih =>
    intro s
    cases s with
    | nil => simp [startsWithList]
    | cons c cs =>
      simp only [startsWithList, List.length_cons, List.take_succ_cons,
        Bool.and_eq_true, decide_eq_true_eq, List.cons.injEq, ih cs]
      constructor
      · rintro ⟨rfl, h⟩; exact ⟨rfl, h⟩
      · rintro ⟨rfl, h⟩; exact ⟨rfl, h⟩

theorem startsWithList_self (p : List Char) : startsWithList p p = true := by
  rw [startsWithList_iff_take]; simp

theorem containsSub_of_startsWith {p s : List Char}
    (h : startsWithList p s = true) : containsSub p s = true := by
  cases s with
  | nil => simpa [containsSub] using h
  | cons c cs => simp [containsSub, h]

theorem containsSub_cons_false {p : List Char} {c : Char} {cs : List Char}
    (h : containsSub p (c :: cs) = false) :
    startsWithList p (c :: cs) = false ∧ containsSub p cs = false := by
  simpa [containsSub] using h

/-- Python's `replace(old, '')` leaves a string without occurrences of
`old` unchanged. -/
theorem removeOccs_of_not_contains (p : List Char) :
    ∀ r : List Char, containsSub p r = false → removeOccs p r = r := by
  intro r
  induction r with
  | nil => intro _; simp [removeOccs]
  | cons c cs ih =>
    intro h
    obtain ⟨h1, h2⟩ := containsSub_cons_false h
    rw [removeOccs, dif_neg (by simp [h1])]
    rw [ih h2]

/-- Key boundary lemma: because `p` is border-free, no occurrence of `p`
in `r ++ p` can straddle the boundary, so when `r` itself has no
occurrence, `replace` removes exactly the terminal `p`. -/
theorem removeOccs_append_self (p : List Char) (hb : borderFree p)
    (hp : p ≠ []) :
    ∀ r : List Char, containsSub p r = false → removeOccs p (r ++ p) = r := by
  intro r
  induction r with
  | nil =>
    intro _
    rw [List.nil_append]
    cases p with
    | nil => exact absurd rfl hp
    | cons a ps =>
      rw [removeOccs, dif_pos ⟨startsWithList_self _, hp⟩]
      rw [show (a :: ps).length = (a :: ps : List Char).length from rfl,
        List.drop_length]
      simp [removeOccs]
  | cons c cs ih =>
    intro h
    obtain ⟨h1, h2⟩ := containsSub_cons_false h
    have hsw : startsWithList p (c :: cs ++ p) = false := by
      by_contra hx
      rw [Bool.not_eq_false, startsWithList_iff_take] at hx
      rcases le_or_lt p.length (c :: cs).length with hle | hlt
      · have htk : (c :: cs).take p.length = p := by
          rw [List.take_append_eq_append_take,
            Nat.sub_eq_zero_of_le hle] at hx
          simpa using hx
        have : containsSub p (c :: cs) = true :=
          containsSub_of_startsWith ((startsWithList_iff_take _ _).mpr htk)
        simp [this] at h
      · rw [List.take_append_eq_append_take,
          List.take_of_length_le (le_of_lt hlt)] at hx
        have hd : p.drop (c :: cs).length =
            p.take (p.length - (c :: cs).length) := by
          conv_lhs => rw [← hx]
          rw [List.drop_left]
        have hm1 : 0 < (c :: cs).length := by simp
        refine hb (p.length - (c :: cs).length) (by omega) (by omega) ?_
        rw [← hd]
        congr 1
        omega
    have hsw' : startsWithList p (c :: (cs ++ p)) = false := by
      rw [← List.cons_append]; exact hsw
    rw [List.cons_append, removeOccs,
      dif_neg (by rintro ⟨ha, -⟩; simp [hsw'] at ha)]
    rw [ih h2]

/-- Counterexample to C5 as stated: the filename `Client.logClient.log` is
matched by the glob `*Client.log`, so the claim says its identifier is the
filename minus the suffix, `Client.log`; but `str.replace` removes every
occurrence, leaving the empty remainder, so the code returns `default`. -/
theorem extract_test_name_cex :
    endsWithList ("Client.log".toList) ("Client.logClient.log".toList) = true ∧
      extract_test_name ("Client.logClient.log".toList) ≠
        spec_suffix_name ("Client.logClient.log".toList) ("Client.log".toList) ∧
      extract_test_name ("Client.logClient.log".toList) = "default".toList ∧
      spec_suffix_name ("Client.logClient.log".toList) ("Client.log".toList) =
        "Client.log".toList := by
  have he : extract_test_name ("Client.logClient.log".toList) =
      "default".toList := by
    simp [extract_test_name, removeOccs, startsWithList, List.drop]
  have hs : spec_suffix_name ("Client.logClient.log".toList)
      ("Client.log".toList) = "Client.log".toList := by decide
  refine ⟨by decide, ?_, he, hs⟩
  rw [he, hs]; decide

/-- C5 amended: the identifier is the filename with every occurrence of
`Client.log`, then `Server.log`, then `Proxy.log` removed, `default` if
nothing remains.  When the three patterns occur in the filename only as
the single terminal suffix — in particular for every conventional name
`<test>Client.log` / `<test>Server.log` / `<test>Proxy.log` whose stem
contains none of the patterns — this equals the filename with the matched
suffix removed, with empty stems mapping to `default`. -/
theorem extract_test_name_strips_suffix (r sfx : List Char)
    (hs : sfx = "Client.log".toList ∨ sfx = "Server.log".toList ∨
      sfx = "Proxy.log".toList)
    (h1 : ∀ p ∈ [("Client.log".toList), ("Server.log".toList),
      ("Proxy.log".toList)], containsSub p r = false)
    (h2 : ∀ p ∈ [("Client.log".toList), ("Server.log".toList),
      ("Proxy.log".toList)], p ≠ sfx → containsSub p (r ++ sfx) = false) :
    extract_test_name (r ++ sfx) =
      if r.isEmpty then "default".toList else r := by
  have hbC : borderFree ("Client.log".toList) := by decide
  have hbS : borderFree ("Server.log".toList) := by decide
  have hbP : borderFree ("Proxy.log".toList) := by decide
  have h1C := h1 ("Client.log".toList) (by decide)
  have h1S := h1 ("Server.log".toList) (by decide)
  have h1P := h1 ("Proxy.log".toList) (by decide)
  rcases hs with rfl | rfl | rfl
  · simp only [extract_test_name]
    rw [removeOccs_append_self _ hbC (by decide) r h1C,
      removeOccs_of_not_contains _ r h1S,
      removeOccs_of_not_contains _ r h1P]
  · simp only [extract_test_name]
    rw [removeOccs_of_not_contains _ _
        (h2 ("Client.log".toList) (by decide) (by decide)),
      removeOccs_append_self _ hbS (by decide) r h1S,
      removeOccs_of_not_contains _ r h1P]
  · simp only [extract_test_name]
    rw [removeOccs_of_not_contains _ _
        (h2 ("Client.log".toList) (by decide) (by decide)),
      removeOccs_of_not_contains _ _
        (h2 ("Server.log".toList) (by decide) (by decide)),
      removeOccs_append_self _ hbP (by decide) r h1P]

/-- Witness for the amended C5 at the specification's own example: the
stem `5Drop` with each of the three suffixes resolves to `5Drop`, and the
bare `Client.log` resolves to `default`. -/
theorem extract_test_name_strips_suffix_witness :
    extract_test_name ("5DropClient.log".toList) = "5Drop".toList ∧
      extract_test_name ("5DropServer.log".toList) = "5Drop".toList ∧
      extract_test_name ("5DropProxy.log".toList) = "5Drop".toList ∧
      extract_test_name ("Client.log".toList) = "default".toList := by
  refine ⟨?_, ?_, ?_, ?_⟩
  · simpa using extract_test_name_strips_suffix ("5Drop".toList) _
      (Or.inl rfl) (by decide) (by decide)
  · simpa using extract_test_name_strips_suffix ("5Drop".toList) _
      (Or.inr (Or.inl rfl)) (by decide) (by decide)
  · simpa using extract_test_name_strips_suffix ("5Drop".toList) _
      (Or.inr (Or.inr rfl)) (by decide) (by decide)
  · simpa using extract_test_name_strips_suffix [] _
      (Or.inl rfl) (by decide) (by decide)

/-! ## Digit characters and the canonical timestamp (claims C1, C8) -/

theorem dc_isDigit {k : Nat} (hk : k < 10) : (dc k).isDigit = true := by
  interval_cases k <;> decide

theorem dc_toNat {k : Nat} (hk : k < 10) : (dc k).toNat = 48 + k := by
  interval_cases k <;> decide

theorem dc_ne_space {k : Nat} (hk : k < 10) : ¬dc k = ' ' := by
  interval_cases k <;> decide

theorem dc_isTsChar {k : Nat} (hk : k < 10) : isTsChar (dc k) = true := by
  interval_cases k <;> decide

theorem monthLen_le (y m : Nat) : monthLen y m ≤ 31 := by
  unfold monthLen
  split
  · split <;> omega
  · split <;> omega

theorem takeWhile_append_of_all (p : Char → Bool) :
    ∀ l r : List Char, (∀ c ∈ l, p c = true) →
      (l ++ r).takeWhile p = l ++ r.takeWhile p := by
  intro l
  induction l with
  | nil => intro r _; simp
  | cons a l ih =>
    intro r h
    rw [List.cons_append, List.takeWhile_cons, if_pos (h a (by simp)),
      ih r (fun c hc => h c (by simp [hc])), List.cons_append]

theorem dropWhile_append_of_all (p : Char → Bool) :
    ∀ l r : List Char, (∀ c ∈ l, p c = true) →
      (l ++ r).dropWhile p = r.dropWhile p := by
  intro l
  induction l with
  | nil => intro r _; simp
  | cons a l ih =>
    intro r h
    rw [List.cons_append, List.dropWhile_cons, if_pos (h a (by simp)),
      ih r (fun c hc => h c (by simp [hc]))]

theorem canonTs_tsChar {y mo d h mi s : Nat} (hv : ValidDT y mo d h mi s) :
    ∀ c ∈ canonTs y mo d h mi s, isTsChar c = true := by
  obtain ⟨hy1, hy2, hmo1, hmo2, hd1, hd2, hh, hmi, hs⟩ := hv
  have hd31 : d ≤ 31 := le_trans hd2 (monthLen_le y mo)
  intro c hc
  simp only [canonTs, List.mem_cons, List.not_mem_nil, or_false] at hc
  rcases hc with rfl | rfl | rfl | rfl | rfl | rfl | rfl | rfl | rfl | rfl |
    rfl | rfl | rfl | rfl | rfl | rfl | rfl | rfl | rfl <;>
    first
      | exact dc_isTsChar (by omega)
      | decide

theorem strptime_canon {y mo d h mi s : Nat} (hv : ValidDT y mo d h mi s) :
    strptimeYmdHMS (canonTs y mo d h mi s) = some ⟨y, mo, d, h, mi, s⟩ := by
  obtain ⟨hy1, hy2, hmo1, hmo2, hd1, hd2, hh, hmi, hs⟩ := hv
  have hd31 : d ≤ 31 := le_trans hd2 (monthLen_le y mo)
  have p1 : (dc (y / 1000)).isDigit = true := dc_isDigit (by omega)
  have p2 : (dc (y / 100 % 10)).isDigit = true := dc_isDigit (by omega)
  have p3 : (dc (y / 10 % 10)).isDigit = true := dc_isDigit (by omega)
  have p4 : (dc (y % 10)).isDigit = true := dc_isDigit (by omega)
  have q1 : (dc (mo / 10)).isDigit = true := dc_isDigit (by omega)
  have q2 : (dc (mo % 10)).isDigit = true := dc_isDigit (by omega)
  have r1 : (dc (d / 10)).isDigit = true := dc_isDigit (by omega)
  have r2 : (dc (d % 10)).isDigit = true := dc_isDigit (by omega)
  have s1 : (dc (h / 10)).isDigit = true := dc_isDigit (by omega)
  have s2 : (dc (h % 10)).isDigit = true := dc_isDigit (by omega)
  have t1 : (dc (mi / 10)).isDigit = true := dc_isDigit (by omega)
  have t2 : (dc (mi % 10)).isDigit = true := dc_isDigit (by omega)
  have u1 : (dc (s / 10)).isDigit = true := dc_isDigit (by omega)
  have u2 : (dc (s % 10)).isDigit = true := dc_isDigit (by omega)
  have w1 : ('-' : Char).isDigit = false := by decide
  have w2 : (' ' : Char).isDigit = false := by decide
  have w3 : (':' : Char).isDigit = false := by decide
  have w4 : decide (dc (h / 10) = ' ') = false :=
    decide_eq_false (dc_ne_space (by omega))
  have eY : digitsVal [dc (y / 1000), dc (y / 100 % 10), dc (y / 10 % 10),
      dc (y % 10)] = y := by
    simp only [digitsVal, List.foldl, dc_toNat (show y / 1000 < 10 by omega),
      dc_toNat (show y / 100 % 10 < 10 by omega),
      dc_toNat (show y / 10 % 10 < 10 by omega),
      dc_toNat (show y % 10 < 10 by omega)]
    omega
  have eMO : digitsVal [dc (mo / 10), dc (mo % 10)] = mo := by
    simp only [digitsVal, List.foldl, dc_toNat (show mo / 10 < 10 by omega),
      dc_toNat (show mo % 10 < 10 by omega)]
    omega
  have eD : digitsVal [dc (d / 10), dc (d % 10)] = d := by
    simp only [digitsVal, List.foldl, dc_toNat (show d / 10 < 10 by omega),
      dc_toNat (show d % 10 < 10 by omega)]
    omega
  have eH : digitsVal [dc (h / 10), dc (h % 10)] = h := by
    simp only [digitsVal, List.foldl, dc_toNat (show h / 10 < 10 by omega),
      dc_toNat (show h % 10 < 10 by omega)]
    omega
  have eMI : digitsVal [dc (mi / 10), dc (mi % 10)] = mi := by
    simp only [digitsVal, List.foldl, dc_toNat (show mi / 10 < 10 by omega),
      dc_toNat (show mi % 10 < 10 by omega)]
    omega
  have eS : digitsVal [dc (s / 10), dc (s % 10)] = s := by
    simp only [digitsVal, List.foldl, dc_toNat (show s / 10 < 10 by omega),
      dc_toNat (show s % 10 < 10 by omega)]
    omega
  have kM : runOk [dc (mo / 10), dc (mo % 10)] 1 12 = true := by
    simp only [runOk, eMO, List.length_cons, List.length_nil,
      Bool.and_eq_true, Bool.or_eq_true, decide_eq_true_eq, or_true,
      true_and]
    omega
  have kD : runOk [dc (d / 10), dc (d % 10)] 1 31 = true := by
    simp only [runOk, eD, List.length_cons, List.length_nil,
      Bool.and_eq_true, Bool.or_eq_true, decide_eq_true_eq, or_true,
      true_and]
    omega
  have kH : runOk [dc (h / 10), dc (h % 10)] 0 23 = true := by
    simp only [runOk, eH, List.length_cons, List.length_nil,
      Bool.and_eq_true, Bool.or_eq_true, decide_eq_true_eq, or_true,
      true_and]
    omega
  have kMI : runOk [dc (mi / 10), dc (mi % 10)] 0 59 = true := by
    simp only [runOk, eMI, List.length_cons, List.length_nil,
      Bool.and_eq_true, Bool.or_eq_true, decide_eq_true_eq, or_true,
      true_and]
    omega
  have kS : runOk [dc (s / 10), dc (s % 10)] 0 61 = true := by
    simp only [runOk, eS, List.length_cons, List.length_nil,
      Bool.and_eq_true, Bool.or_eq_true, decide_eq_true_eq, or_true,
      true_and]
    omega
  have kFin : (decide (1 ≤ y) && decide (1 ≤ d) &&
      decide (d ≤ monthLen y mo) && decide (s ≤ 59)) = true := by
    simp only [Bool.and_eq_true, decide_eq_true_eq]
    exact ⟨⟨⟨hy1, hd1⟩, hd2⟩, hs⟩
  simp [canonTs, strptimeYmdHMS, List.takeWhile_cons, List.dropWhile_cons,
    p1, p2, p3, p4, q1, q2, r1, r2, s1, s2, t1, t2, u1, u2, w1, w2, w3, w4,
    List.takeWhile_nil, List.dropWhile_nil,
    List.length_cons, List.length_nil, eY, eMO, eD, eH, eMI, eS,
    kM, kD, kH, kMI, kS, kFin, List.isEmpty_nil, Bool.not_true, Bool.not_false,
    bne_self_eq_false, ite_false, ite_true]

/-! ## Stripping lemmas (claims C1, C8) -/

theorem dropWhile_eq_self_of_head (p : Char → Bool) (l : List Char)
    (h : ∀ c, l.head? = some c → p c = false) : l.dropWhile p = l := by
  cases l with
  | nil => rfl
  | cons a l => rw [List.dropWhile_cons, if_neg (by simp [h a rfl])]

theorem head_dropWhile_false (p : Char → Bool) :
    ∀ (l : List Char) (c : Char), (l.dropWhile p).head? = some c →
      p c = false := by
  intro l
  induction l with
  | nil => intro c hc; simp [List.dropWhile] at hc
  | cons a l ih =>
    intro c hc
    rw [List.dropWhile_cons] at hc
    by_cases hpa : p a = true
    · rw [if_pos hpa] at hc
      exact ih c hc
    · rw [if_neg hpa] at hc
      simp only [List.head?_cons, Option.some.injEq] at hc
      subst hc
      simpa using hpa

theorem getLast_dropWhile (p : Char → Bool) :
    ∀ l : List Char, l.dropWhile p ≠ [] →
      (l.dropWhile p).getLast? = l.getLast? := by
  intro l
  induction l with
  | nil => intro h; simp [List.dropWhile] at h
  | cons a l ih =>
    intro h
    rw [List.dropWhile_cons] at h ⊢
    by_cases hpa : p a = true
    · rw [if_pos hpa] at h ⊢
      cases hl : l with
      | nil => subst hl; simp [List.dropWhile] at h
      | cons b t =>
        rw [← hl, ih h, hl, List.getLast?_cons_cons]
    · rw [if_neg hpa]

/-- Function `pyStrip` is the identity on lists whose first and last characters are
not whitespace. -/
theorem pyStrip_eq_self (l : List Char)
    (h1 : ∀ c, l.head? = some c → pyWS c = false)
    (h2 : ∀ c, l.getLast? = some c → pyWS c = false) : pyStrip l = l := by
  unfold pyStrip
  rw [dropWhile_eq_self_of_head _ _ h1]
  rw [dropWhile_eq_self_of_head _ _
    (by intro c hc; rw [List.head?_reverse] at hc; exact h2 c hc)]
  exact List.reverse_reverse l

/-- Stripping is idempotent, so the per-line processing of
`parse_log_file` factors through `pyStrip`. -/
theorem pyStrip_idem (s : List Char) : pyStrip (pyStrip s) = pyStrip s := by
  apply pyStrip_eq_self
  · intro c hc
    unfold pyStrip at hc
    rw [List.head?_reverse] at hc
    have hne : (((s.dropWhile pyWS).reverse).dropWhile pyWS) ≠ [] := by
      intro h0
      rw [h0] at hc
      simp at hc
    rw [getLast_dropWhile _ _ hne, List.getLast?_reverse] at hc
    exact head_dropWhile_false _ _ c hc
  · intro c hc
    unfold pyStrip at hc
    rw [List.getLast?_reverse] at hc
    exact head_dropWhile_false _ _ c hc

/-! ## Parsing of well-formed lines (claim C1) -/

theorem parseLine_wellFormed (l : List Char) (h : WellFormedLine l) :
    ∃ e : Event, parseLine l = some e := by
  obtain ⟨y, mo, d, hh, mi, s, msg, hv, hlast, rfl⟩ := h
  have hmsg_ne : msg ≠ [] := by
    intro h0
    subst h0
    simp [lastNonWS] at hlast
  have hmsg_last : ∀ c, msg.getLast? = some c → pyWS c = false := by
    intro c hc
    unfold lastNonWS at hlast
    rw [hc] at hlast
    simpa using hlast
  have hstrip : pyStrip ('[' :: canonTs y mo d hh mi s ++ ']' :: ' ' :: msg) =
      '[' :: canonTs y mo d hh mi s ++ ']' :: ' ' :: msg := by
    apply pyStrip_eq_self
    · intro c hc
      rw [List.cons_append] at hc
      simp only [List.head?_cons, Option.some.injEq] at hc
      subst hc
      decide
    · intro c hc
      have hre : ('[' :: canonTs y mo d hh mi s) ++ (']' :: ' ' :: msg) =
          (('[' :: canonTs y mo d hh mi s) ++ [']', ' ']) ++ msg := by
        simp
      rw [hre, List.getLast?_append] at hc
      cases hm : msg.getLast? with
      | none => exact absurd (List.getLast?_eq_none_iff.mp hm) hmsg_ne
      | some x =>
        rw [hm] at hc
        simp only [Option.or_some, Option.some.injEq] at hc
        subst hc
        exact hmsg_last x hm
  have hrun : (canonTs y mo d hh mi s ++ ']' :: ' ' :: msg).takeWhile isTsChar =
      canonTs y mo d hh mi s := by
    rw [takeWhile_append_of_all _ _ _ (canonTs_tsChar hv)]
    simp [List.takeWhile_cons, isTsChar]
  have hdrop : (canonTs y mo d hh mi s ++ ']' :: ' ' :: msg).dropWhile isTsChar =
      ']' :: ' ' :: msg := by
    rw [dropWhile_append_of_all _ _ _ (canonTs_tsChar hv)]
    simp [List.dropWhile_cons, isTsChar]
  refine ⟨⟨⟨y, mo, d, hh, mi, s⟩, msg⟩, ?_⟩
  unfold parseLine
  rw [hstrip, List.cons_append]
  unfold matchBracket
  simp only [hrun, hdrop]
  rw [if_neg (by simp [canonTs, hmsg_ne])]
  simp [strptime_canon hv]

/-- C1: on a file all of whose lines are well-formed
`[YYYY-MM-DD HH:MM:SS] message`, `parse_log_file` produces exactly one
event per line, in file order, with no line dropped (`Forall₂` pairs each
line with its event). -/
theorem parse_log_file_wellFormed (lines : List (List Char))
    (h : ∀ l ∈ lines, WellFormedLine l) :
    List.Forall₂ (fun l e => parseLine l = some e) lines
      (parse_log_file lines) := by
  induction lines with
  | nil => simp [parse_log_file]
  | cons l ls ih =>
    obtain ⟨e, he⟩ := parseLine_wellFormed l (h l (by simp))
    unfold parse_log_file
    rw [List.filterMap_cons, he]
    exact List.Forall₂.cons he (ih fun l' hl' => h l' (by simp [hl']))

/-- Witness for C1 on a concrete one-line file. -/
theorem parse_log_file_wellFormed_witness :
    (∀ l ∈ [("[2024-01-01 12:00:00] SEND: seq=1".toList)], WellFormedLine l) ∧
      List.Forall₂ (fun l e => parseLine l = some e)
        [("[2024-01-01 12:00:00] SEND: seq=1".toList)]
        (parse_log_file [("[2024-01-01 12:00:00] SEND: seq=1".toList)]) := by
  have hw : ∀ l ∈ [("[2024-01-01 12:00:00] SEND: seq=1".toList)],
      WellFormedLine l := by
    intro l hl
    simp only [List.mem_singleton] at hl
    subst hl
    exact ⟨2024, 1, 1, 12, 0, 0, "SEND: seq=1".toList, by decide, by decide,
      by decide⟩
  exact ⟨hw, parse_log_file_wellFormed _ hw⟩

/-! ## Lines without the bracket prefix (claim C8) -/

/-- Counterexample to C8 as stated: `str.strip()` removes leading
whitespace too, so the line `" [2024-01-01 00:00:00] x"`, which does not
begin with the bracket-timestamp prefix, still contributes one event. -/
theorem parse_leading_space_cex :
    startsWithList ("[".toList) (" [2024-01-01 00:00:00] x".toList) = false ∧
      parse_log_file [(" [2024-01-01 00:00:00] x".toList)] =
        [⟨⟨2024, 1, 1, 0, 0, 0⟩, "x".toList⟩] := by
  constructor
  · decide
  · decide

/-- C8 amended: each line is stripped of leading and trailing whitespace,
then required to match the bracketed-timestamp pattern; a line whose
stripped form does not begin with `[` contributes zero events. -/
theorem parse_requires_bracket (line : List Char) :
    parseLine line = parseLine (pyStrip line) ∧
      (startsWithList ("[".toList) (pyStrip line) = false →
        parseLine line = none) := by
  constructor
  · simp only [parseLine, pyStrip_idem]
  · intro h
    unfold parseLine
    have hmb : matchBracket (pyStrip line) = none := by
      unfold matchBracket
      split
      · rename_i rest heq
        rw [heq] at h
        simp [startsWithList] at h
      · rfl
    rw [hmb]

/-- Witness for the amended C8 on a concrete bracketless line. -/
theorem parse_requires_bracket_witness :
    parseLine ("no bracket here".toList) =
        parseLine (pyStrip ("no bracket here".toList)) ∧
      parseLine ("no bracket here".toList) = none := by
  refine ⟨(parse_requires_bracket _).1, ?_⟩
  exact (parse_requires_bracket ("no bracket here".toList)).2 (by decide)

end VisualizeLog
